import Mathlib

/-!
Shallow embedding of src/include/visit_struct/visit_struct_intrusive.hpp.

The header builds, at compile time, an ordered registry of field descriptors
for a struct: BEGIN_VISITABLES declares an overload of
Visit_Struct_Get_Visitables__ taking Rank<0> and returning TypeList<>; each
VISITABLE(TYPE, NAME) queries the current registry (overload resolution at
Rank<maxVisitableRank>) and declares a further overload at the next rank whose
return type appends the new member descriptor; END_VISITABLES freezes the
query result into a typedef and attaches the intrusive tag. The visitor
dispatcher (structure_helper / member_helper) folds over the frozen list,
invoking the visitor once per member with the member's name and a reference
obtained through member_ptr_helper.

C++ types (TypeList elements, member descriptor structs) are modelled as Lean
values; the overload set of Visit_Struct_Get_Visitables__ is modelled as an
explicit list of (rank, return type) declarations, with C++ overload
resolution (derived-to-base: an argument Rank<q> converts to a parameter
Rank<r> iff r ≤ q, the most derived viable parameter wins) made explicit.
-/

set_option autoImplicit false

namespace visit_struct

namespace detail

/-- Embeds detail::TypeList (visit_struct_intrusive.hpp lines 42-45): an
ordered compile-time list of types; the element types are modelled as values
of a type A. -/
abbrev TypeList (A : Type) : Type := List A

/-- Embeds the static member TypeList::size, i.e. sizeof...(Ts). -/
def TypeList.size {A : Type} (l : TypeList A) : Nat := l.length

/-- Embeds the Append metafunction (lines 48-57):
Append of TypeList Ts... and T is TypeList Ts... T, the same elements with T
added at the end. -/
def Append {A : Type} (l : TypeList A) (t : A) : TypeList A := l ++ [t]

/-- Embeds maxVisitableRank (line 71), the Rank at which
VISIT_STRUCT_GET_REGISTERED_MEMBERS performs the query. -/
def maxVisitableRank : Nat := 200

/-- One declaration of the member function Visit_Struct_Get_Visitables__
inside a struct body: its parameter type Rank<rank> and its return type, a
TypeList of member descriptors. Because Rank<N> derives from Rank<N-1>
(lines 65-69), an argument Rank<q> converts to a parameter Rank<rank> iff
rank ≤ q. -/
structure Overload (A : Type) : Type where
  rank : Nat
  members : TypeList A
deriving DecidableEq

/-- One comparison step of overload resolution for an argument Rank<q>: an
overload is viable iff its rank is at most q (derived-to-base conversion),
and among viable overloads the largest rank (most derived parameter) wins. -/
def viableStep {A : Type} (q : Nat) (best : Option (Overload A)) (o : Overload A) : Option (Overload A) :=
  if o.rank ≤ q then
    match best with
    | none => some o
    | some b => if b.rank < o.rank then some o else best
  else best

/-- C++ overload resolution for a call Visit_Struct_Get_Visitables__ with
argument Rank<q>: among the declared overloads, those with rank ≤ q are
viable, and the one with the most derived parameter (largest rank) is
selected; none models an ill-formed call with no viable overload. -/
def bestViable {A : Type} (ovls : List (Overload A)) (q : Nat) : Option (Overload A) :=
  ovls.foldl (viableStep q) none

/-- Embeds VISIT_STRUCT_GET_REGISTERED_MEMBERS (line 191): the decltype of
calling Visit_Struct_Get_Visitables__ with Rank<maxVisitableRank>. -/
def getRegisteredMembers {A : Type} (ovls : List (Overload A)) : Option (TypeList A) :=
  (bestViable ovls maxVisitableRank).map Overload.members

/-- Embeds BEGIN_VISITABLES (lines 195-198): the overload set after the begin
marker, holding the single Rank<0> declaration returning TypeList<>. -/
def beginVisitables {A : Type} : List (Overload A) := [⟨0, []⟩]

/-- Embeds the effect of one VISITABLE(TYPE, NAME) expansion on the overload
set (lines 209-211): query the current registry, then declare a new overload
at rank size + 1 returning the Append of the current registry and the new
member descriptor. A class member may not be declared twice, so a second
declaration at an already-used rank is ill-formed (none); an ill-formed query
also yields none. -/
def visitableStep {A : Type} (ovls : List (Overload A)) (d : A) : Option (List (Overload A)) :=
  match getRegisteredMembers ovls with
  | none => none
  | some cur =>
      if ovls.any (fun o => o.rank == TypeList.size cur + 1) then none
      else some (ovls ++ [⟨TypeList.size cur + 1, Append cur d⟩])

/-- The overload set produced by BEGIN_VISITABLES followed by one VISITABLE
per descriptor in ds, in order; none if any step is ill-formed. -/
def registerFields {A : Type} (ds : List A) : Option (List (Overload A)) :=
  ds.foldl (fun acc d => acc.bind (fun ovls => visitableStep ovls d)) (some beginVisitables)

/-- The visit-related content of a closed struct definition: its overload
set, whether the tag typedef Visit_Struct_Visitable_Structure_Tag__ is
present and names intrusive_tag (line 216), and the frozen typedef
Visit_Struct_Registered_Members_List__ (line 215) when present. -/
structure StructDef (A : Type) : Type where
  overloads : List (Overload A)
  tag : Bool
  registeredMembers : Option (TypeList A)
deriving DecidableEq

/-- Embeds END_VISITABLES (lines 214-217): freeze the current query result
into the registered-members typedef and attach the intrusive tag. -/
def endVisitables {A : Type} (ovls : List (Overload A)) : Option (StructDef A) :=
  (getRegisteredMembers ovls).map (fun ms => ⟨ovls, true, some ms⟩)

/-- A record that completed the three-step registration: begin marker, one
VISITABLE per descriptor in ds, end marker. -/
def registerRecord {A : Type} (ds : List A) : Option (StructDef A) :=
  (registerFields ds).bind endVisitables

/-- A record that began registration and declared fields but never ran
END_VISITABLES: no tag, no frozen members typedef. -/
def openRecord {A : Type} (ds : List A) : Option (StructDef A) :=
  (registerFields ds).map (fun ovls => ⟨ovls, false, none⟩)

/-- The frozen registry of a record defined from the descriptor list ds, when
the definition compiles. -/
def closedRegistry {A : Type} (ds : List A) : Option (TypeList A) :=
  (registerRecord ds).bind StructDef.registeredMembers

/-- Embeds member_ptr_helper (lines 124-129) together with the member_name
constant of the descriptor struct generated by VISITABLE (line 207). get s
models reading the lvalue s.*member_ptr; set v s models assigning v through
that lvalue. -/
structure Member (S V : Type) : Type where
  member_name : String
  get : S → V
  set : V → S → S

/-- Embeds member_helper<M>::apply_visitor (lines 131-137) for a reading
visit: the visitor is invoked with M::member_name and the value of
M::apply(structure_instance); W is the visitor's side-effect state, threaded
explicitly. -/
def member_helper.apply_visitor {S V W : Type} (M : Member S V) (visitor : String → V → W → W) (s : S) (w : W) : W :=
  visitor M.member_name (M.get s) w

/-- Embeds structure_helper<TypeList<Ms...>>::apply_visitor (lines 142-156):
the pack expansion inside the array initializer invokes
member_helper<M>::apply_visitor once per member, left to right, each call
completing before the next; this is a left fold of the visitor state. -/
def structure_helper.apply_visitor {S V W : Type} (Ms : TypeList (Member S V)) (visitor : String → V → W → W) (s : S) (w : W) : W :=
  Ms.foldl (fun w M => member_helper.apply_visitor M visitor s w) w

end detail

namespace traits

/-- Embeds the traits::visitable<T> SFINAE condition (lines 168-175): the
specialization exists, and its static value member is true, exactly when the
intrusive tag typedef is present. -/
def visitableValue {A : Type} (sd : detail.StructDef A) : Bool := sd.tag

/-- Embeds traits::visitable<T>::apply (lines 177-180), which dispatches on
the frozen typedef Visit_Struct_Registered_Members_List__. Modelled from the
spec: invoking visit on a type without the Visitability Tag is a compile-time
rejection, "type is not visitable" (the generic visit entrypoint lives in the
sibling header visit_struct.hpp, which is not part of this repository slice);
the rejection is modelled as none. -/
def visitApply {S V W : Type} (sd : detail.StructDef (detail.Member S V)) (visitor : String → V → W → W) (s : S) (w : W) : Option W :=
  if visitableValue sd then
    sd.registeredMembers.map (fun Ms => detail.structure_helper.apply_visitor Ms visitor s w)
  else none

end traits

namespace detail

/-- A visitor that records each invocation's (name, value) pair in order. -/
def traceVisitor {V : Type} : String → V → List (String × V) → List (String × V) :=
  fun n v t => t ++ [(n, v)]

/-- The value categories a structure_instance can be passed with: the three
overloads of member_ptr_helper::apply take S&, const S& and S&&. -/
inductive VCat : Type where
  | lval : VCat
  | clval : VCat
  | rval : VCat
deriving DecidableEq

/-- A reference to a whole structure: its value category and the structure
value it denotes. -/
structure SRef (S : Type) : Type where
  cat : VCat
  base : S

/-- A reference to a field, as returned by member_ptr_helper::apply: its
value category and the field value it denotes. -/
structure FRef (V : Type) : Type where
  cat : VCat
  val : V

/-- Embeds the three overloads of member_ptr_helper::apply (lines 126-128):
T& apply(S&), const T& apply(const S&), and T&& apply(S&&); each returns a
reference to s.*member_ptr whose category matches the overload taken. -/
def member_ptr_helper.apply {S V : Type} (M : Member S V) (s : SRef S) : FRef V :=
  match s.cat with
  | VCat.lval => ⟨VCat.lval, M.get s.base⟩
  | VCat.clval => ⟨VCat.clval, M.get s.base⟩
  | VCat.rval => ⟨VCat.rval, M.get s.base⟩

/-- member_helper::apply_visitor with the value category of the forwarded
structure_instance made explicit: the visitor receives the reference produced
by member_ptr_helper::apply on std::forward<S>(structure_instance). -/
def member_helper.apply_visitor_cat {S V W : Type} (M : Member S V) (visitor : String → FRef V → W → W) (s : SRef S) (w : W) : W :=
  visitor M.member_name (member_ptr_helper.apply M s) w

/-- structure_helper::apply_visitor with value categories explicit:
std::forward<S>(structure_instance) on line 150 hands every member_helper
call the same structure reference, category unchanged. -/
def structure_helper.apply_visitor_cat {S V W : Type} (Ms : TypeList (Member S V)) (visitor : String → FRef V → W → W) (s : SRef S) (w : W) : W :=
  Ms.foldl (fun w M => member_helper.apply_visitor_cat M visitor s w) w

/-- member_helper::apply_visitor for a mutable visit (the S& overload of
member_ptr_helper::apply): the visitor receives M::member_name and a T&
alias of the member. The alias is modelled by handing the visitor the member
descriptor itself, through which it may read and write the structure; the
pair carries the structure value and the visitor's own state. -/
def member_helper.apply_visitor_mut {S V W : Type} (M : Member S V) (visitor : String → Member S V → S × W → S × W) (p : S × W) : S × W :=
  visitor M.member_name M p

/-- structure_helper::apply_visitor for a mutable visit: the left-to-right
fold over the member list, threading the mutated structure. -/
def structure_helper.apply_visitor_mut {S V W : Type} (Ms : TypeList (Member S V)) (visitor : String → Member S V → S × W → S × W) (p : S × W) : S × W :=
  Ms.foldl (fun p M => member_helper.apply_visitor_mut M visitor p) p

/-- A visitor that writes v through the reference received at its i-th
invocation (0-based) and otherwise leaves the structure alone; its own state
counts invocations. -/
def writeAtVisitor {S V : Type} (i : Nat) (v : V) : String → Member S V → S × Nat → S × Nat :=
  fun _ M p => (if p.2 = i then M.set v p.1 else p.1, p.2 + 1)

/-- The overload set reached after BEGIN_VISITABLES and k = ds.length
successful VISITABLE expansions: one declaration per rank 0..k, the one at
rank i returning the first i descriptors. -/
def stateOf {A : Type} (ds : List A) : List (Overload A) :=
  (List.range (ds.length + 1)).map (fun i => ⟨i, ds.take i⟩)

/-- Field x of the sample record Point, modelled as a pair of naturals. -/
def px : Member (Nat × Nat) Nat := ⟨"x", Prod.fst, fun v p => (v, p.2)⟩

/-- Field y of the sample record Point. -/
def py : Member (Nat × Nat) Nat := ⟨"y", Prod.snd, fun v p => (p.1, v)⟩

/-- A trivial member descriptor, used to build records with many fields. -/
def unitMember : Member Unit Unit := ⟨"f", fun _ => (), fun _ s => s⟩

/-- A member descriptor named b whose reads yield true. -/
def bTrue : Member Bool Bool := ⟨"b", fun _ => true, fun _ s => s⟩

/-- A member descriptor named b, distinct from bTrue, whose reads yield
false. -/
def bFalse : Member Bool Bool := ⟨"b", fun _ => false, fun _ s => s⟩

/-- Embeds one full VISITABLE(TYPE, NAME) expansion (lines 200-212): besides
the overload declaration modelled by visitableStep (lines 209-211), the
macro declares the data member NAME itself (line 201) and defines the
descriptor struct named Visit_Struct_Member_Record__NAME (line 193 and
lines 202-208). A class member may not be declared twice, so a VISITABLE
whose NAME was already used in the record redeclares the data member and
redefines the descriptor struct: the expansion is ill-formed (none). The
state pairs the member names declared so far with the overload set. -/
def visitableFull {S V : Type} (st : List String × List (Overload (Member S V)))
    (d : Member S V) : Option (List String × List (Overload (Member S V))) :=
  if d.member_name ∈ st.1 then none
  else (visitableStep st.2 d).map (fun ovls => (st.1 ++ [d.member_name], ovls))

/-- The registration run with the per-name declarations of VISITABLE
included: BEGIN_VISITABLES followed by one full VISITABLE expansion per
descriptor; none if any expansion is ill-formed. -/
def registerFieldsFull {S V : Type} (ds : List (Member S V)) :
    Option (List String × List (Overload (Member S V))) :=
  ds.foldl (fun acc d => acc.bind (fun st => visitableFull st d)) (some ([], beginVisitables))

end detail

end visit_struct

namespace visit_struct

open detail traits

/-- Resolution over an overload set with one declaration per rank 0..n picks
the rank min n q: the largest declared rank that is at most the argument
rank. -/
theorem bestViable_rangeMap {A : Type} (f : Nat → TypeList A) (n q : Nat) :
    bestViable ((List.range (n + 1)).map (fun i => (⟨i, f i⟩ : Overload A))) q
      = some ⟨min n q, f (min n q)⟩ := by
  induction n with
  | zero =>
      simp [bestViable, viableStep, List.range_succ]
  | succ n ih =>
      rw [List.range_succ, List.map_append]
      unfold bestViable
      rw [List.foldl_append]
      have ih' : List.foldl (viableStep q) none ((List.range (n + 1)).map (fun i => (⟨i, f i⟩ : Overload A))) = some ⟨min n q, f (min n q)⟩ := ih
      rw [ih']
      simp only [List.map, List.foldl]
      unfold viableStep
      by_cases h : n + 1 ≤ q
      · have h1 : min n q = n := by omega
        have h2 : min (n + 1) q = n + 1 := by omega
        simp [h, h1, h2]
      · have h2 : min (n + 1) q = min n q := by omega
        simp [h, h2]

/-- Taking min of the length with q is the same as taking q elements. -/
theorem take_min_length {A : Type} (ds : List A) (q : Nat) :
    ds.take (min ds.length q) = ds.take q := by
  rcases le_total ds.length q with h | h
  · rw [min_eq_left h, List.take_length, List.take_of_length_le h]
  · rw [min_eq_right h]

/-- On the overload set reached after the appends for ds, the registry query
yields the first maxVisitableRank descriptors of ds. -/
theorem getRegisteredMembers_stateOf {A : Type} (ds : List A) :
    getRegisteredMembers (stateOf ds) = some (ds.take maxVisitableRank) := by
  unfold getRegisteredMembers stateOf
  rw [bestViable_rangeMap]
  simp [take_min_length]

/-- Appending one descriptor extends the overload set by the single next-rank
declaration. -/
theorem stateOf_append {A : Type} (ds : List A) (d : A) :
    stateOf (ds ++ [d]) = stateOf ds ++ [⟨ds.length + 1, ds ++ [d]⟩] := by
  unfold stateOf
  simp only [List.length_append, List.length_singleton]
  rw [List.range_succ, List.map_append]
  congr 1
  · apply List.map_congr_left
    intro i hi
    rw [List.mem_range] at hi
    have : (ds ++ [d]).take i = ds.take i := List.take_append_of_le_length (by omega)
    rw [this]
  · have : (ds ++ [d]).take (ds.length + 1) = ds ++ [d] := by
      apply List.take_of_length_le
      simp
    simp [this]

/-- The ranks declared after the appends for ds are exactly 0..ds.length. -/
theorem stateOf_any_rank {A : Type} (ds : List A) (r : Nat) :
    ((stateOf ds).any fun o => o.rank == r) = true ↔ r ≤ ds.length := by
  unfold stateOf
  simp only [List.any_eq_true, List.mem_map, List.mem_range, beq_iff_eq]
  constructor
  · rintro ⟨o, ⟨i, hi, rfl⟩, h⟩
    simp at h
    omega
  · intro h
    exact ⟨⟨r, ds.take r⟩, ⟨r, by omega, rfl⟩, rfl⟩

/-- A VISITABLE expansion on a registry not yet at the bound adds the next
descriptor. -/
theorem visitableStep_stateOf {A : Type} (ds : List A) (d : A)
    (h : ds.length ≤ maxVisitableRank) :
    visitableStep (stateOf ds) d = some (stateOf (ds ++ [d])) := by
  have htake : ds.take maxVisitableRank = ds := List.take_of_length_le h
  have hget := getRegisteredMembers_stateOf (A := A) ds
  rw [htake] at hget
  have hany : ((stateOf ds).any fun o => o.rank == TypeList.size ds + 1) = false := by
    rw [Bool.eq_false_iff, Ne, stateOf_any_rank]
    show ¬ (ds.length + 1 ≤ ds.length)
    omega
  simp only [visitableStep, hget]
  rw [hany]
  simp [stateOf_append, detail.Append, TypeList.size]

/-- The 202nd VISITABLE expansion is ill-formed: it would redeclare the
overload at rank maxVisitableRank + 1. -/
theorem visitableStep_stateOf_full {A : Type} (ds : List A) (d : A)
    (h : ds.length = maxVisitableRank + 1) :
    visitableStep (stateOf ds) d = none := by
  have hsz : TypeList.size (ds.take maxVisitableRank) = maxVisitableRank := by
    simp [TypeList.size, List.length_take]
    omega
  have hany : ((stateOf ds).any fun o => o.rank == maxVisitableRank + 1) = true := by
    rw [stateOf_any_rank]
    omega
  simp only [visitableStep, getRegisteredMembers_stateOf, hsz]
  rw [hany]
  rfl

/-- registerFields factors over a final append. -/
theorem registerFields_snoc {A : Type} (ds : List A) (d : A) :
    registerFields (ds ++ [d]) = (registerFields ds).bind (fun ovls => visitableStep ovls d) := by
  unfold registerFields
  rw [List.foldl_append]
  rfl

/-- Full characterization of the registration run: up to 201 appends succeed
and produce one overload per rank; from 202 appends the definition is
ill-formed. -/
theorem registerFields_char {A : Type} (ds : List A) :
    registerFields ds
      = if ds.length ≤ maxVisitableRank + 1 then some (stateOf ds) else none := by
  induction ds using List.reverseRecOn with
  | nil =>
      simp [registerFields, beginVisitables, stateOf, maxVisitableRank, List.range_succ]
  | append_singleton ds d ih =>
      rw [registerFields_snoc, ih]
      by_cases h : ds.length ≤ maxVisitableRank + 1
      · rw [if_pos h]
        by_cases h2 : ds.length ≤ maxVisitableRank
        · simp only [Option.some_bind]
          rw [visitableStep_stateOf ds d h2]
          rw [if_pos (by simp; omega)]
        · have h3 : ds.length = maxVisitableRank + 1 := by omega
          simp only [Option.some_bind]
          rw [visitableStep_stateOf_full ds d h3]
          rw [if_neg (by simp; omega)]
      · rw [if_neg h]
        simp only [Option.none_bind]
        rw [if_neg (by simp; omega)]

/-- Characterization of a completed registration within the compiling range:
the frozen registry is the first maxVisitableRank descriptors. -/
theorem registerRecord_char {A : Type} (ds : List A)
    (h : ds.length ≤ maxVisitableRank + 1) :
    registerRecord ds = some ⟨stateOf ds, true, some (ds.take maxVisitableRank)⟩ := by
  unfold registerRecord endVisitables
  rw [registerFields_char, if_pos h]
  simp [getRegisteredMembers_stateOf]

/-- Registration of 202 or more fields does not compile. -/
theorem registerRecord_none {A : Type} (ds : List A)
    (h : maxVisitableRank + 1 < ds.length) :
    registerRecord ds = none := by
  unfold registerRecord
  rw [registerFields_char, if_neg (by omega)]
  rfl

/-- The dispatcher is a left fold of the visitor over the (name, value)
pairs of the member list, in order. -/
theorem apply_visitor_pairs {S V W : Type} (Ms : List (Member S V))
    (visitor : String → V → W → W) (s : S) (w : W) :
    structure_helper.apply_visitor Ms visitor s w
      = (Ms.map (fun M => (M.member_name, M.get s))).foldl (fun w p => visitor p.1 p.2 w) w := by
  induction Ms generalizing w with
  | nil => rfl
  | cons M t ih =>
      simp only [structure_helper.apply_visitor, List.foldl, List.map] at *
      exact ih _

/-- The categorized dispatcher hands every invocation a field reference
whose category is that of the structure reference and whose value is the
member's value. -/
theorem apply_visitor_cat_pairs {S V W : Type} (Ms : List (Member S V))
    (visitor : String → FRef V → W → W) (s : SRef S) (w : W) :
    structure_helper.apply_visitor_cat Ms visitor s w
      = Ms.foldl (fun w M => visitor M.member_name ⟨s.cat, M.get s.base⟩ w) w := by
  obtain ⟨c, b⟩ := s
  cases c <;> rfl

/-- Running the write-at-i visitor with the counter already past i leaves the
structure unchanged and advances the counter by the number of members. -/
theorem apply_visitor_mut_skip {S V : Type} (Ms : List (Member S V)) (i : Nat) (v : V)
    (s : S) (c : Nat) (h : i < c) :
    structure_helper.apply_visitor_mut Ms (writeAtVisitor i v) (s, c) = (s, c + Ms.length) := by
  induction Ms generalizing s c with
  | nil => simp [structure_helper.apply_visitor_mut]
  | cons M t ih =>
      simp only [structure_helper.apply_visitor_mut, List.foldl] at *
      have hstep : member_helper.apply_visitor_mut M (writeAtVisitor i v) (s, c) = (s, c + 1) := by
        simp [member_helper.apply_visitor_mut, writeAtVisitor]
        omega
      rw [hstep, ih s (c + 1) (by omega)]
      have hlen : c + 1 + t.length = c + (M :: t).length := by
        simp only [List.length_cons]
        omega
      rw [hlen]

/-- Running the write-at visitor targeting the j-th remaining member writes v
through exactly that member. -/
theorem apply_visitor_mut_hit {S V : Type} (Ms : List (Member S V)) (j : Nat)
    (hj : j < Ms.length) (v : V) (s : S) (c : Nat) :
    structure_helper.apply_visitor_mut Ms (writeAtVisitor (c + j) v) (s, c)
      = ((Ms.get ⟨j, hj⟩).set v s, c + Ms.length) := by
  induction Ms generalizing j s c with
  | nil => simp at hj
  | cons M t ih =>
      cases j with
      | zero =>
          simp only [structure_helper.apply_visitor_mut, List.foldl, List.length_cons] at *
          have hstep : member_helper.apply_visitor_mut M (writeAtVisitor (c + 0) v) (s, c)
              = (M.set v s, c + 1) := by
            simp [member_helper.apply_visitor_mut, writeAtVisitor]
          rw [hstep]
          have := apply_visitor_mut_skip t (c + 0) v (M.set v s) (c + 1) (by omega)
          simp only [structure_helper.apply_visitor_mut] at this
          rw [this]
          have hlen : c + 1 + t.length = c + (t.length + 1) := by omega
          rw [hlen]
          rfl
      | succ k =>
          simp only [structure_helper.apply_visitor_mut, List.foldl, List.length_cons] at *
          have hne : ¬ (c = c + (k + 1)) := by omega
          have hstep : member_helper.apply_visitor_mut M (writeAtVisitor (c + (k + 1)) v) (s, c)
              = (s, c + 1) := by
            simp [member_helper.apply_visitor_mut, writeAtVisitor, hne]
          rw [hstep]
          have harg : c + (k + 1) = (c + 1) + k := by omega
          rw [harg]
          have hk : k < t.length := by
            simp only [List.length_cons] at hj
            omega
          have := ih k hk s (c + 1)
          rw [this]
          have hlen : c + 1 + t.length = c + (t.length + 1) := by omega
          rw [hlen]
          rfl

/-- Folding the tracing visitor appends the visited pairs to the
accumulator. -/
theorem foldl_traceVisitor {V : Type} (ps : List (String × V)) (acc : List (String × V)) :
    ps.foldl (fun t p => traceVisitor p.1 p.2 t) acc = acc ++ ps := by
  induction ps generalizing acc with
  | nil => simp
  | cons p t ih =>
      simp only [List.foldl]
      rw [ih]
      simp [traceVisitor]

/-- C1 (amended: the claim holds for records declaring at most
maxVisitableRank = 200 fields; a 201st declared field is silently skipped,
see the counterexample): for every record type that completed the three-step
registration declaring fields f1..fn in order, n ≤ 200, and every record
instance and visitor, visiting invokes the visitor exactly n times, the i-th
invocation receiving (name(fi), value(fi)), in strictly increasing
declaration order, with each call fully completing before the next begins
(the visitor state is threaded left to right through the fold); no field is
skipped, visited twice, or synthesized beyond those declared. -/
theorem c1_visit_in_order {S V W : Type} (ds : List (Member S V))
    (h : ds.length ≤ maxVisitableRank) (sd : StructDef (Member S V))
    (hr : registerRecord ds = some sd) (visitor : String → V → W → W) (s : S) (w : W) :
    visitApply sd visitor s w
      = some ((ds.map (fun M => (M.member_name, M.get s))).foldl (fun w p => visitor p.1 p.2 w) w) := by
  rw [registerRecord_char ds (by omega)] at hr
  injection hr with hr
  subst hr
  have htake : ds.take maxVisitableRank = ds := List.take_of_length_le h
  simp [visitApply, visitableValue, htake, apply_visitor_pairs]

/-- Witness for c1_visit_in_order at the two-field record Point with
instance (3, 4) and the tracing visitor. -/
theorem c1_visit_in_order_witness :
    [px, py].length ≤ maxVisitableRank
    ∧ visitApply ⟨stateOf [px, py], true, some ([px, py].take maxVisitableRank)⟩
        traceVisitor (3, 4) [] = some [("x", 3), ("y", 4)] :=
  ⟨by decide,
   c1_visit_in_order [px, py] (by decide) _ (registerRecord_char [px, py] (by decide))
     traceVisitor (3, 4) []⟩

/-- C1 counterexample: the record declaring 201 fields completes the
three-step registration, yet visiting invokes the visitor only 200 times,
skipping the 201st declared field. -/
theorem c1_counterexample :
    (List.replicate (maxVisitableRank + 1) unitMember).length = maxVisitableRank + 1
    ∧ (registerRecord (List.replicate (maxVisitableRank + 1) unitMember)).isSome = true
    ∧ (registerRecord (List.replicate (maxVisitableRank + 1) unitMember)).map
        (fun sd => (visitApply sd traceVisitor () []).map List.length)
        = some (some maxVisitableRank) := by
  have hchar := registerRecord_char (List.replicate (maxVisitableRank + 1) unitMember) (by simp)
  have h1 : (List.replicate (maxVisitableRank + 1) unitMember).take maxVisitableRank
      = List.replicate maxVisitableRank unitMember := by
    rw [List.take_replicate]
    congr 1
  refine ⟨by simp, by rw [hchar]; rfl, ?_⟩
  rw [hchar]
  simp [visitApply, visitableValue, apply_visitor_pairs, foldl_traceVisitor, h1]

/-- C2 (amended: the query tracks the appends only up to priority
maxVisitableRank = 200; the 201st append is declared at priority 201 but the
query, taken at the maximum rank 200, does not see it — see the
counterexample): within one record declaring at most 200 fields, the ranks
declared are exactly the strictly increasing sequence 0..k, and after k
field declarations the query yields exactly the list of the first k
descriptors. -/
theorem c2_priority_accumulator {A : Type} (ds : List A)
    (h : ds.length ≤ maxVisitableRank) (k : Nat) (hk : k ≤ ds.length) :
    registerFields (ds.take k) = some (stateOf (ds.take k))
    ∧ (stateOf (ds.take k)).map Overload.rank = List.range (k + 1)
    ∧ List.Pairwise (fun a b => a < b) ((stateOf (ds.take k)).map Overload.rank)
    ∧ getRegisteredMembers (stateOf (ds.take k)) = some (ds.take k) := by
  have hlen : (ds.take k).length = k := by
    rw [List.length_take]
    omega
  have hranks : (stateOf (ds.take k)).map Overload.rank = List.range (k + 1) := by
    unfold stateOf
    rw [hlen, List.map_map]
    have hid : ∀ x ∈ List.range (k + 1),
        (Overload.rank ∘ fun i => (⟨i, (ds.take k).take i⟩ : Overload A)) x = id x :=
      fun x _ => rfl
    rw [List.map_congr_left hid, List.map_id]
  refine ⟨?_, hranks, ?_, ?_⟩
  · rw [registerFields_char, if_pos (by rw [hlen]; omega)]
  · rw [hranks]
    exact List.pairwise_lt_range (k + 1)
  · rw [getRegisteredMembers_stateOf]
    congr 1
    exact List.take_of_length_le (by rw [hlen]; omega)

/-- Witness for c2_priority_accumulator after two of three declarations. -/
theorem c2_priority_accumulator_witness :
    [10, 20, 30].length ≤ maxVisitableRank
    ∧ 2 ≤ [10, 20, 30].length
    ∧ getRegisteredMembers (stateOf ([10, 20, 30].take 2)) = some ([10, 20, 30].take 2) :=
  ⟨by decide, by decide, (c2_priority_accumulator [10, 20, 30] (by decide) 2 (by decide)).2.2.2⟩

/-- C2 counterexample: after 201 field declarations the record still
compiles and the 201st append is associated with priority 201, but the
query does not yield the registry of the append at the highest declared
priority: it yields only the first 200 descriptors. -/
theorem c2_counterexample :
    (List.range (maxVisitableRank + 1)).length = maxVisitableRank + 1
    ∧ registerFields (List.range (maxVisitableRank + 1))
        = some (stateOf (List.range (maxVisitableRank + 1)))
    ∧ getRegisteredMembers (stateOf (List.range (maxVisitableRank + 1)))
        = some (List.range maxVisitableRank)
    ∧ List.range maxVisitableRank ≠ List.range (maxVisitableRank + 1) := by
  refine ⟨by simp, ?_, ?_, ?_⟩
  · rw [registerFields_char, if_pos (by simp)]
  · rw [getRegisteredMembers_stateOf, List.take_range]
    have hmin : min maxVisitableRank (maxVisitableRank + 1) = maxVisitableRank := by omega
    rw [hmin]
  · intro hcon
    have hlen := congrArg List.length hcon
    rw [List.length_range, List.length_range] at hlen
    omega

/-- C3: Append yields a registry whose elements are exactly those of r, in
the same order, followed by d at the end; the size of the result is the size
of r plus one; the empty registry has size 0. Append is a pure Lean
function, so it has no side effects. -/
theorem c3_append_contract {A : Type} (r : TypeList A) (d : A) :
    (∀ i, i < r.length → (detail.Append r d).get? i = r.get? i)
    ∧ (detail.Append r d).get? r.length = some d
    ∧ TypeList.size (detail.Append r d) = TypeList.size r + 1
    ∧ TypeList.size ([] : TypeList A) = 0 := by
  refine ⟨?_, ?_, ?_, rfl⟩
  · intro i hi
    unfold detail.Append
    exact List.get?_append hi
  · unfold detail.Append
    rw [List.get?_append_right (le_refl _)]
    simp
  · simp [TypeList.size, detail.Append]

/-- Witness for c3_append_contract on the registry [10, 20] and descriptor
30. -/
theorem c3_append_contract_witness :
    0 < [10, 20].length
    ∧ (detail.Append [10, 20] 30).get? 0 = [10, 20].get? 0
    ∧ (detail.Append [10, 20] 30).get? [10, 20].length = some 30
    ∧ TypeList.size (detail.Append [10, 20] 30) = TypeList.size [10, 20] + 1 :=
  ⟨by decide, (c3_append_contract [10, 20] 30).1 0 (by decide),
   (c3_append_contract [10, 20] 30).2.1, (c3_append_contract [10, 20] 30).2.2.1⟩

/-- C4 (amended: the bound is not enforced by a failure at the bound: a
record may perform up to 201 appends and still compile, with the registry
query silently truncated to the first 200 descriptors; only from the 202nd
append on is the definition ill-formed, by a conflicting redeclaration of
the rank-201 overload, and the header contains no too-many-visitable-fields
diagnostic): registration succeeds exactly for at most 201 appends, and every
successful registration's query yields the first 200 descriptors. -/
theorem c4_append_bound {A : Type} (ds : List A) :
    ((registerFields ds).isSome = true ↔ ds.length ≤ maxVisitableRank + 1)
    ∧ (∀ ovls, registerFields ds = some ovls →
        getRegisteredMembers ovls = some (ds.take maxVisitableRank)) := by
  constructor
  · rw [registerFields_char]
    by_cases h : ds.length ≤ maxVisitableRank + 1
    · simp [h]
    · simp [h]
  · intro ovls hov
    rw [registerFields_char] at hov
    by_cases h : ds.length ≤ maxVisitableRank + 1
    · rw [if_pos h] at hov
      injection hov with hov
      subst hov
      exact getRegisteredMembers_stateOf ds
    · rw [if_neg h] at hov
      cases hov

/-- Witness for c4_append_bound on a two-field registration. -/
theorem c4_append_bound_witness :
    (registerFields (List.range 2)).isSome = true
    ∧ getRegisteredMembers (stateOf (List.range 2)) = some ((List.range 2).take maxVisitableRank) :=
  ⟨(c4_append_bound (List.range 2)).1.mpr (by decide),
   (c4_append_bound (List.range 2)).2 (stateOf (List.range 2)) rfl⟩

/-- C4 counterexample: performing 201 appends, one more than the bound
maxVisitableRank = 200, is not a definition-time failure: registration
succeeds, and the closed registry silently truncates to the first 200
descriptors. -/
theorem c4_counterexample :
    (registerFields (List.range (maxVisitableRank + 1))).isSome = true
    ∧ closedRegistry (List.range (maxVisitableRank + 1)) = some (List.range maxVisitableRank)
    ∧ List.range maxVisitableRank ≠ List.range (maxVisitableRank + 1) := by
  refine ⟨?_, ?_, ?_⟩
  · rw [registerFields_char, if_pos (by simp)]
    rfl
  · unfold closedRegistry
    rw [registerRecord_char _ (by simp)]
    show some ((List.range (maxVisitableRank + 1)).take maxVisitableRank) = _
    rw [List.take_range]
    have hmin : min maxVisitableRank (maxVisitableRank + 1) = maxVisitableRank := by omega
    rw [hmin]
  · intro hcon
    have hlen := congrArg List.length hcon
    rw [List.length_range, List.length_range] at hlen
    omega

/-- C5: visit is accepted exactly on record types carrying the Visitability
Tag: a record that completed the three-step registration carries the tag and
every visit on it succeeds, while a record that began registration but never
completed it does not carry the tag and every visit on it is rejected; the
membership test is exact on records built by the registration surface. -/
theorem c5_visitable_tag_exact {S V W : Type} (ds : List (Member S V)) :
    (∀ sd, registerRecord ds = some sd →
        visitableValue sd = true
        ∧ ∀ (visitor : String → V → W → W) (s : S) (w : W),
            (visitApply sd visitor s w).isSome = true)
    ∧ (∀ sd, openRecord ds = some sd →
        visitableValue sd = false
        ∧ ∀ (visitor : String → V → W → W) (s : S) (w : W),
            visitApply sd visitor s w = none) := by
  constructor
  · intro sd hsd
    unfold registerRecord endVisitables at hsd
    cases hf : registerFields ds with
    | none => rw [hf] at hsd; cases hsd
    | some ovls =>
        rw [hf] at hsd
        simp only [Option.some_bind] at hsd
        cases hg : getRegisteredMembers ovls with
        | none => rw [hg] at hsd; cases hsd
        | some ms =>
            rw [hg] at hsd
            simp only [Option.map_some'] at hsd
            injection hsd with hsd
            subst hsd
            refine ⟨rfl, ?_⟩
            intro visitor s w
            simp [visitApply, visitableValue]
  · intro sd hsd
    unfold openRecord at hsd
    cases hf : registerFields ds with
    | none => rw [hf] at hsd; cases hsd
    | some ovls =>
        rw [hf] at hsd
        simp only [Option.map_some'] at hsd
        injection hsd with hsd
        subst hsd
        exact ⟨rfl, fun visitor s w => by simp [visitApply, visitableValue]⟩

/-- Witness for c5_visitable_tag_exact: the completed Point record carries
the tag, and the never-closed one-field record rejects every visit. -/
theorem c5_visitable_tag_exact_witness :
    visitableValue (⟨[⟨0, []⟩, ⟨1, [px]⟩, ⟨2, [px, py]⟩], true, some [px, py]⟩
        : StructDef (Member (Nat × Nat) Nat)) = true
    ∧ visitApply (⟨[⟨0, []⟩, ⟨1, [px]⟩], false, none⟩ : StructDef (Member (Nat × Nat) Nat))
        traceVisitor (3, 4) [] = none :=
  ⟨((c5_visitable_tag_exact (W := List (String × Nat)) [px, py]).1 _ rfl).1,
   (((c5_visitable_tag_exact (W := List (String × Nat)) [px]).2 _ rfl).2 traceVisitor (3, 4) [])⟩

/-- C6: every accessor preserves and propagates the value category of the
record instance unchanged into the field reference it yields (read-only to
read-only, mutable to mutable, moved-from to move-extraction), and the
dispatcher forwards the instance's value category unchanged into every
accessor call. -/
theorem c6_value_category_preserved {S V W : Type} (s : SRef S) :
    (∀ M : Member S V, (member_ptr_helper.apply M s).cat = s.cat
        ∧ (member_ptr_helper.apply M s).val = M.get s.base)
    ∧ ∀ (Ms : List (Member S V)) (visitor : String → FRef V → W → W) (w : W),
        structure_helper.apply_visitor_cat Ms visitor s w
          = Ms.foldl (fun w M => visitor M.member_name ⟨s.cat, M.get s.base⟩ w) w := by
  constructor
  · intro M
    obtain ⟨c, b⟩ := s
    cases c <;> exact ⟨rfl, rfl⟩
  · intro Ms visitor w
    exact apply_visitor_cat_pairs Ms visitor s w

/-- C7: a record that begins and ends registration with zero field
declarations resolves to the empty registry (not an error), is visitable,
and visiting any instance of it with any visitor invokes the visitor zero
times and still succeeds, returning the visitor state unchanged. -/
theorem c7_empty_record {S V W : Type} (visitor : String → V → W → W) (s : S) (w : W) :
    registerRecord ([] : List (Member S V)) = some ⟨[⟨0, []⟩], true, some []⟩
    ∧ getRegisteredMembers (beginVisitables (A := Member S V)) = some []
    ∧ visitableValue (⟨[⟨0, []⟩], true, some []⟩ : StructDef (Member S V)) = true
    ∧ visitApply (⟨[⟨0, []⟩], true, some []⟩ : StructDef (Member S V)) visitor s w = some w :=
  ⟨rfl, rfl, rfl, rfl⟩

/-- C8 (amended: declaring the same field name twice within one record's
registration sequence is itself a definition-time failure — the second
VISITABLE redeclares the data member and redefines the descriptor struct —
so no registry results; the registry mechanism performs no name-based
merging, overwriting or deduplication: with distinct names both descriptors
are preserved at their respective declaration positions). -/
theorem c8_duplicate_name_rejected {S V : Type} (d1 d2 : Member S V) :
    (d1.member_name = d2.member_name → registerFieldsFull [d1, d2] = none)
    ∧ (d1.member_name ≠ d2.member_name →
        registerFieldsFull [d1, d2] = some ([d1.member_name, d2.member_name], stateOf [d1, d2])
        ∧ getRegisteredMembers (stateOf [d1, d2]) = some [d1, d2]
        ∧ [d1, d2].get? 0 = some d1
        ∧ [d1, d2].get? 1 = some d2) := by
  have h1 : visitableFull (([] : List String), beginVisitables (A := Member S V)) d1
      = some ([d1.member_name], [⟨0, []⟩, ⟨1, [d1]⟩]) := by
    unfold visitableFull
    rw [if_neg (List.not_mem_nil d1.member_name)]
    rfl
  have hrun : registerFieldsFull [d1, d2]
      = visitableFull ([d1.member_name], [⟨0, []⟩, ⟨1, [d1]⟩]) d2 := by
    unfold registerFieldsFull
    simp only [List.foldl]
    rw [Option.some_bind, h1, Option.some_bind]
  constructor
  · intro hname
    rw [hrun]
    unfold visitableFull
    rw [if_pos (by simp [hname.symm])]
  · intro hname
    refine ⟨?_, rfl, rfl, rfl⟩
    rw [hrun]
    unfold visitableFull
    rw [if_neg (by simp; exact fun hcon => hname hcon.symm)]
    rfl

/-- Witness for c8_duplicate_name_rejected: the same-named pair (bTrue,
bFalse) makes registration ill-formed, while the distinct-named Point pair
keeps both descriptors at their positions. -/
theorem c8_duplicate_name_rejected_witness :
    registerFieldsFull [bTrue, bFalse] = none
    ∧ registerFieldsFull [px, py] = some (["x", "y"], stateOf [px, py])
    ∧ getRegisteredMembers (stateOf [px, py]) = some [px, py] :=
  ⟨(c8_duplicate_name_rejected bTrue bFalse).1 rfl,
   ((c8_duplicate_name_rejected px py).2 (by decide)).1,
   ((c8_duplicate_name_rejected px py).2 (by decide)).2.1⟩

/-- C8 counterexample: declaring the field name b twice never yields a
registry at all: the second expansion is a definition-time failure
(data-member redeclaration and descriptor-struct redefinition), refuting
the claim that such a registration yields a registry holding two
descriptors. -/
theorem c8_counterexample :
    bTrue.member_name = bFalse.member_name
    ∧ bTrue ≠ bFalse
    ∧ registerFieldsFull [bTrue, bFalse] = none :=
  ⟨rfl, fun hcon => Bool.noConfusion (congrArg (fun m => Member.get m true) hcon), rfl⟩

/-- C9: during a mutable visit, the reference the visitor receives for the
i-th field is a true alias of that field of the record: writing v through it
yields a record whose i-th field reads back as v, while every other field is
unchanged. The hypotheses are the member-pointer semantics of distinct C++
data members: reading a member right after writing it yields the written
value, and writing one member leaves every other member unchanged. -/
theorem c9_mutable_visit_alias {S V : Type} (Ms : List (Member S V)) (i : Nat)
    (hi : i < Ms.length) (v : V) (s : S)
    (hlaw : ∀ w t, (Ms.get ⟨i, hi⟩).get ((Ms.get ⟨i, hi⟩).set w t) = w)
    (hframe : ∀ j (hj : j < Ms.length), j ≠ i →
        ∀ w t, (Ms.get ⟨j, hj⟩).get ((Ms.get ⟨i, hi⟩).set w t) = (Ms.get ⟨j, hj⟩).get t) :
    (Ms.get ⟨i, hi⟩).get ((structure_helper.apply_visitor_mut Ms (writeAtVisitor i v) (s, 0)).1) = v
    ∧ ∀ j (hj : j < Ms.length), j ≠ i →
        (Ms.get ⟨j, hj⟩).get ((structure_helper.apply_visitor_mut Ms (writeAtVisitor i v) (s, 0)).1)
          = (Ms.get ⟨j, hj⟩).get s := by
  have hrun : structure_helper.apply_visitor_mut Ms (writeAtVisitor i v) (s, 0)
      = ((Ms.get ⟨i, hi⟩).set v s, Ms.length) := by
    have := apply_visitor_mut_hit Ms i hi v s 0
    simpa using this
  rw [hrun]
  exact ⟨hlaw v s, fun j hj hne => hframe j hj hne v s⟩

/-- Witness for c9_mutable_visit_alias: mutably visiting Point (3, 4) and
writing 7 through the reference received for x yields x = 7 and leaves y
unchanged. -/
theorem c9_mutable_visit_alias_witness :
    px.get ((structure_helper.apply_visitor_mut [px, py] (writeAtVisitor 0 7) ((3, 4), 0)).1) = 7
    ∧ py.get ((structure_helper.apply_visitor_mut [px, py] (writeAtVisitor 0 7) ((3, 4), 0)).1)
        = py.get (3, 4) :=
  ⟨(c9_mutable_visit_alias [px, py] 0 (by decide) 7 (3, 4) (fun w t => rfl)
      (fun j hj hne w t => by
        have hj2 : j < 2 := by simpa using hj
        rcases j with _ | _ | n
        · exact absurd rfl hne
        · rfl
        · omega)).1,
   (c9_mutable_visit_alias [px, py] 0 (by decide) 7 (3, 4) (fun w t => rfl)
      (fun j hj hne w t => by
        have hj2 : j < 2 := by simpa using hj
        rcases j with _ | _ | n
        · exact absurd rfl hne
        · rfl
        · omega)).2 1 (by decide) (by decide)⟩

/-- C10: registry construction is monotone: for a record whose definition
compiles, the registry snapshot after the first k field declarations is
exactly the length-k prefix of the closed registry, for every k up to the
declared field count. -/
theorem c10_registry_prefix_monotone {A : Type} (ds : List A) (r : TypeList A)
    (hr : closedRegistry ds = some r) (k : Nat) (hk : k ≤ ds.length) :
    closedRegistry (ds.take k) = some (r.take k) := by
  by_cases h : ds.length ≤ maxVisitableRank + 1
  · have hchar : closedRegistry ds = some (ds.take maxVisitableRank) := by
      unfold closedRegistry
      rw [registerRecord_char ds h]
      rfl
    rw [hchar] at hr
    injection hr with hr
    subst hr
    have hlen : (ds.take k).length ≤ maxVisitableRank + 1 := by
      rw [List.length_take]
      omega
    unfold closedRegistry
    rw [registerRecord_char (ds.take k) hlen]
    show some ((ds.take k).take maxVisitableRank) = some ((ds.take maxVisitableRank).take k)
    rw [List.take_take, List.take_take, Nat.min_comm]
  · exfalso
    unfold closedRegistry at hr
    rw [registerRecord_none ds (by omega)] at hr
    cases hr

/-- Witness for c10_registry_prefix_monotone on a three-field record at
k = 2. -/
theorem c10_registry_prefix_monotone_witness :
    2 ≤ [1, 2, 3].length
    ∧ closedRegistry ([1, 2, 3].take 2) = some ([1, 2, 3].take 2) :=
  ⟨by decide, c10_registry_prefix_monotone [1, 2, 3] [1, 2, 3] rfl 2 (by decide)⟩

end visit_struct
